/-
Verification of the versaDeploy deployment engine against its
natural-language specification.

Each section shallowly embeds one component of the Go source:

* `internal/state/state.go`        — the `deploy.lock` state store,
* `internal/changeset` (Detector)  — change detection and walk pruning,
* `internal/artifact/artifact.go`  — the chunk splitter and tar headers,
* `internal/ssh/ssh.go`            — remote-session command construction
                                     and the distributed lock,
* the deployer (`Deploy`, `runHook`, `rollback`, `Rollback`) — the release
  coordinator, modelled as a transformer of an abstract remote state.

Machine integers do not occur in the verified fragments; strings, lists
and options model the Go values directly.  External effects (git, the
network, subprocesses) are supplied by an oracle record holding the
outcome of each fallible call, so the coordinator's control flow is
embedded exactly while the environment stays abstract.
-/
import Mathlib

namespace VersaDeploy

/-! ## Path helpers (models of Go `path/filepath` on slash paths) -/

/-- Split a character list at `'/'` separators. -/
def splitSlashAux : List Char → List Char → List String
  | [], acc => [String.mk acc.reverse]
  | c :: rest, acc =>
    if c = '/' then String.mk acc.reverse :: splitSlashAux rest []
    else splitSlashAux rest (c :: acc)

/-- Components of a slash path, dropping empty segments
(the view of a cleaned path used by the `filepath.Rel` model). -/
def splitPath (s : String) : List String :=
  (splitSlashAux s.data []).filter (fun c => c ≠ "")

/-- Model of `strings.HasPrefix`. -/
def strHasPfx (p s : String) : Bool :=
  p.data.isPrefixOf s.data

/-- Model of `filepath.IsAbs` for slash paths. -/
def isAbsPath (s : String) : Bool :=
  match s.data with
  | c :: _ => c = '/'
  | [] => false

/-- Render a component list back to a relative slash path. -/
def render : List String → String
  | [] => ""
  | [x] => x
  | x :: xs => x ++ "/" ++ render xs

/-- Model of `filepath.Base` for slash paths (model for cleaned paths):
the last non-empty component; `"/"` for the root, `"."` for the empty
string. -/
def goPathBase (s : String) : String :=
  if s = "" then "."
  else
    match (splitPath s).getLast? with
    | some p => p
    | none => "/"

/-- Model of `filepath.Dir` for cleaned slash paths. -/
def goDir (s : String) : String :=
  let comps := (splitPath s).dropLast
  if isAbsPath s then "/" ++ render comps
  else if comps = [] then "." else render comps

/-- Strip the common leading components of two component lists
(helper for the `filepath.Rel` model). -/
def stripCommon : List String → List String → List String × List String
  | a :: as, b :: bs =>
    if a = b then stripCommon as bs else (a :: as, b :: bs)
  | as, bs => (as, bs)

/-- Model of `filepath.Rel` for cleaned slash paths: `none` when one path is
absolute and the other relative, else `..` steps out of `base` followed
by the remainder of `targ`. -/
def goRel (base targ : String) : Option String :=
  if isAbsPath base ≠ isAbsPath targ then none
  else
    let (b, t) := stripCommon (splitPath base) (splitPath targ)
    let comps := b.map (fun _ => "..") ++ t
    some (if comps = [] then "." else render comps)

/-- Model of `filepath.Ext`: the suffix of the final path element starting at its
last dot, scanning the reversed character list. -/
def goExtCore : List Char → List Char → Option (List Char)
  | [], _ => none
  | c :: rest, acc =>
    if c = '/' then none
    else if c = '.' then some (c :: acc)
    else goExtCore rest (c :: acc)

/-- Model of `filepath.Ext` for slash paths. -/
def goExt (s : String) : String :=
  match goExtCore s.data.reverse [] with
  | some cs => String.mk cs
  | none => ""

/-- Model of `strings.ToLower` restricted to ASCII (all extensions compared by the
detector are ASCII). -/
def lowerStr (s : String) : String :=
  String.mk (s.data.map Char.toLower)

/-! ## State store (`internal/state/state.go`) -/

/-- Model of `state.DeployInfo`: the `last_deploy` record of `deploy.lock`.
The timestamp is carried as its RFC3339 rendering; `FileHashes` is the
Go map in its canonical (key-sorted) association-list form. -/
structure DeployInfo where
  timestamp : String
  commitHash : String
  releaseDir : String
  fileHashes : List (String × String)
  composerHash : String
  packageJSONHash : String
  goModHash : String
deriving Repr, DecidableEq

/-- Model of `state.DeployLock`. -/
structure DeployLock where
  version : String
  lastDeploy : DeployInfo
deriving Repr, DecidableEq

/-- Model of `state.LockFileVersion`. -/
def LockFileVersion : String := "1.0"

/-- Model of `state.New` (timestamp passed explicitly instead of `time.Now`). -/
def DeployLock.new (timestamp commitHash releaseDir : String)
    (fileHashes : List (String × String))
    (composerHash packageHash goModHash : String) : DeployLock :=
  { version := LockFileVersion
    lastDeploy :=
      { timestamp := timestamp
        commitHash := commitHash
        releaseDir := releaseDir
        fileHashes := fileHashes
        composerHash := composerHash
        packageJSONHash := packageHash
        goModHash := goModHash } }

/-- JSON values, at the granularity `encoding/json` uses for this schema. -/
inductive Json where
  | str (s : String)
  | obj (fields : List (String × Json))

/-- Insert a key/value pair into a key-sorted association list
(`encoding/json` emits Go map keys in ascending order). -/
def insertByKey (p : String × String) :
    List (String × String) → List (String × String)
  | [] => [p]
  | q :: qs => if p.1 ≤ q.1 then p :: q :: qs else q :: insertByKey p qs

/-- Sort an association list by key, as `encoding/json` does for maps. -/
def sortByKey (l : List (String × String)) : List (String × String) :=
  l.foldr insertByKey []

/-- Marshalling of the `file_hashes` map. -/
def fileHashesToJson (l : List (String × String)) : Json :=
  .obj ((sortByKey l).map (fun p => (p.1, .str p.2)))

/-- Marshalling of `DeployInfo`, field order as in the struct tags. -/
def DeployInfo.toJson (d : DeployInfo) : Json :=
  .obj [("timestamp", .str d.timestamp),
        ("commit_hash", .str d.commitHash),
        ("release_dir", .str d.releaseDir),
        ("file_hashes", fileHashesToJson d.fileHashes),
        ("composer_hash", .str d.composerHash),
        ("package_json_hash", .str d.packageJSONHash),
        ("go_mod_hash", .str d.goModHash)]

/-- Model of `DeployLock.ToJSON`, at the JSON-value level (the byte rendering and
re-lexing are `encoding/json`'s, external to the repo). -/
def DeployLock.toJson (l : DeployLock) : Json :=
  .obj [("version", .str l.version), ("last_deploy", l.lastDeploy.toJson)]

/-- First binding of a field in a JSON object. -/
def getField (fs : List (String × Json)) (k : String) : Option Json :=
  match fs.find? (fun p => p.1 = k) with
  | some p => some p.2
  | none => none

/-- Unmarshal a string field; a missing field yields Go's zero value `""`,
a non-string value is a type error. -/
def getStr (fs : List (String × Json)) (k : String) : Option String :=
  match getField fs k with
  | some (.str s) => some s
  | some _ => none
  | none => some ""

/-- Unmarshal the `file_hashes` object into the association-list map. -/
def parseHashes : List (String × Json) → Option (List (String × String))
  | [] => some []
  | (k, .str v) :: rest =>
    match parseHashes rest with
    | some tl => some ((k, v) :: tl)
    | none => none
  | (_, .obj _) :: _ => none

/-- Unmarshal `last_deploy`. -/
def parseInfo (j : Json) : Option DeployInfo :=
  match j with
  | .obj fs =>
    match getStr fs "timestamp", getStr fs "commit_hash",
        getStr fs "release_dir", getStr fs "composer_hash",
        getStr fs "package_json_hash", getStr fs "go_mod_hash" with
    | some ts, some ch, some rd, some co, some pk, some gm =>
      match getField fs "file_hashes" with
      | some (.obj kvs) =>
        match parseHashes kvs with
        | some hs => some ⟨ts, ch, rd, hs, co, pk, gm⟩
        | none => none
      | some (.str _) => none
      | none => some ⟨ts, ch, rd, [], co, pk, gm⟩
    | _, _, _, _, _, _ => none
  | .str _ => none

/-- Model of `state.Parse` at the JSON-value level: unmarshal, then reject any
version other than `LockFileVersion`. -/
def parseLock (j : Json) : Except String DeployLock :=
  match j with
  | .obj fs =>
    match getStr fs "version" with
    | none => .error "failed to parse deploy.lock"
    | some v =>
      match getField fs "last_deploy" with
      | some ld =>
        match parseInfo ld with
        | some info =>
          if v = LockFileVersion then .ok ⟨v, info⟩
          else .error "unsupported deploy.lock version"
        | none => .error "failed to parse deploy.lock"
      | none =>
        if v = LockFileVersion then .ok ⟨v, ⟨"", "", "", [], "", "", ""⟩⟩
        else .error "unsupported deploy.lock version"
  | .str _ => .error "failed to parse deploy.lock"

/-- Keys of `file_hashes` pairwise strictly ascending: the canonical
association-list form of a Go map (keys unique, rendered sorted). -/
def KeysSorted (l : List (String × String)) : Prop :=
  l.Pairwise (fun p q => p.1 < q.1)

theorem insertByKey_of_lt (p : String × String)
    (l : List (String × String)) (h : ∀ q ∈ l, p.1 ≤ q.1) :
    insertByKey p l = p :: l := by
  cases l with
  | nil => rfl
  | cons q qs =>
    have hq : p.1 ≤ q.1 := h q (by simp)
    simp [insertByKey, hq]

theorem sortByKey_sorted (l : List (String × String)) (h : KeysSorted l) :
    sortByKey l = l := by
  induction l with
  | nil => rfl
  | cons p ps ih =>
    have hps : KeysSorted ps := (List.pairwise_cons.mp h).2
    have hhd : ∀ q ∈ ps, p.1 ≤ q.1 := by
      intro q hq
      exact le_of_lt ((List.pairwise_cons.mp h).1 q hq)
    simp only [sortByKey, List.foldr_cons]
    have : ps.foldr insertByKey [] = ps := ih hps
    rw [this]
    exact insertByKey_of_lt p ps hhd

theorem parseHashes_map (l : List (String × String)) :
    parseHashes (l.map (fun p => (p.1, .str p.2))) = some l := by
  induction l with
  | nil => rfl
  | cons p ps ih => simp [parseHashes, ih]

/-- C8: for every valid `DeployLock` (version `"1.0"`, `file_hashes` in
the canonical key-sorted map representation), unmarshalling the value
produced by `ToJSON` recovers the lock: `parse(serialize(lock)) = lock`. -/
theorem parse_toJson_roundtrip (l : DeployLock)
    (hver : l.version = LockFileVersion)
    (hkeys : KeysSorted l.lastDeploy.fileHashes) :
    parseLock l.toJson = .ok l := by
  obtain ⟨v, ts, ch, rd, hs, co, pk, gm⟩ := l
  simp only at hver hkeys
  subst hver
  simp [parseLock, DeployLock.toJson, DeployInfo.toJson, getStr, getField,
    List.find?, parseInfo, fileHashesToJson, sortByKey_sorted _ hkeys,
    parseHashes_map, LockFileVersion]

/-- C8 witness: the round trip evaluated on a concrete valid lock. -/
theorem parse_toJson_roundtrip_witness :
    parseLock (DeployLock.new "2026-01-27T12:00:00Z" "abc123"
      "20260127-120000" [("app/main.php", "sha256:aa"), ("main.go", "sha256:bb")]
      "chash" "phash" "ghash").toJson =
    .ok (DeployLock.new "2026-01-27T12:00:00Z" "abc123"
      "20260127-120000" [("app/main.php", "sha256:aa"), ("main.go", "sha256:bb")]
      "chash" "phash" "ghash") := by
  exact parse_toJson_roundtrip _ (by rfl)
    (by simp [DeployLock.new, KeysSorted]; decide)

/-! ## Change detector (`internal/changeset`, concurrent `Detector.Detect`) -/

/-- The "critical" extensions of `Detector.Detect` step 2. -/
def criticalExts : List String :=
  [".php", ".twig", ".go", ".mod", ".sum", ".js", ".ts", ".vue", ".jsx",
   ".tsx", ".css", ".scss", ".sass", ".less"]

/-- The basenames checked inside the `".json"` case of `Detect`. -/
def criticalJsonBases : List String :=
  ["composer.json", "package.json", "composer.lock", "package-lock.json",
   "pnpm-lock.yaml"]

/-- The predicate `isCritical` from `Detect` step 2: critical extension, or a dependency
manifest basename under the `".json"` extension case. -/
def isCritical (rel : String) : Bool :=
  let ext := lowerStr (goExt rel)
  if criticalExts.contains ext then true
  else if ext = ".json" then criticalJsonBases.contains (goPathBase rel)
  else false

/-- Model of `Detector.shouldIgnore`: any configured ignore entry is a string
prefix of the path, or equals it. -/
def shouldIgnore (ign : List String) (rel : String) : Bool :=
  ign.any (fun ig => strHasPfx ig rel || rel == ig)

/-- A snapshot file tree (names are single path components). -/
inductive FsEntry where
  | file (name : String)
  | dir (name : String) (children : List FsEntry)

/-- The walk of `Detector.Detect`: visit entries below the prefix `pre`
(as components), hard-pruning a directory exactly when its relative path
*string* is `".git"`, `"node_modules"` or `"vendor"`, and enqueueing a
file for hashing unless it is ignored and not critical.  Returns the
component paths of the files that get hashed. -/
def collectF (ign : List String) (pre : List String) :
    List FsEntry → List (List String)
  | [] => []
  | FsEntry.file n :: rest =>
    (if shouldIgnore ign (render (pre ++ [n]))
        && !isCritical (render (pre ++ [n])) then []
     else [pre ++ [n]]) ++ collectF ign pre rest
  | FsEntry.dir n cs :: rest =>
    (if render (pre ++ [n]) == ".git" || render (pre ++ [n]) == "node_modules"
        || render (pre ++ [n]) == "vendor" then []
     else collectF ign (pre ++ [n]) cs) ++ collectF ign pre rest

/-- Relative slash paths of the files hashed by `Detect` (the key set of
the new fingerprint `AllFileHashes`). -/
def detectHashedFiles (ign : List String) (roots : List FsEntry) :
    List String :=
  (collectF ign [] roots).map render

theorem collectF_below (ign : List String) (pre : List String)
    (l : List FsEntry) :
    ∀ p ∈ collectF ign pre l, ∃ rest, rest ≠ [] ∧ p = pre ++ rest := by
  induction pre, l using collectF.induct ign with
  | case1 pre => intro p hp; simp [collectF] at hp
  | case2 pre n rest ih =>
    intro p hp
    simp only [collectF, List.mem_append] at hp
    rcases hp with hp | hp
    · split at hp
      · simp at hp
      · simp only [List.mem_singleton] at hp
        exact ⟨[n], by simp, hp⟩
    · exact ih p hp
  | case3 pre n cs rest ih1 ih2 =>
    intro p hp
    simp only [collectF, List.mem_append] at hp
    rcases hp with hp | hp
    · split at hp
      · simp at hp
      · obtain ⟨r, hr, hpr⟩ := ih1 p hp
        exact ⟨n :: r, by simp, by simp [hpr]⟩
    · exact ih2 p hp

/-- C4 counterexample: with an empty ignore list, the walk descends into
the depth-1 directory `a/node_modules` and hashes the file inside it, so
a directory named `node_modules` at depth is *not* pruned and its
contents appear in the new fingerprint. -/
theorem detect_prune_counterexample :
    detectHashedFiles []
      [FsEntry.dir "a" [FsEntry.dir "node_modules" [FsEntry.file "m.js"]]] =
      ["a/node_modules/m.js"] := by
  simp [detectHashedFiles, collectF, shouldIgnore, isCritical, render]

/-- C4 (amended): the hard prune applies exactly to the *top-level*
directories named `.git`, `node_modules`, `vendor`: whatever the user
ignore list, no hashed path lies strictly below a top-level directory
with one of those names. -/
theorem detect_prune_top_level (ign : List String) (roots : List FsEntry)
    (p : List String) (hp : p ∈ collectF ign [] roots)
    (hd : String) (tl : List String) (hptl : p = hd :: tl)
    (htl : tl ≠ []) :
    hd ≠ ".git" ∧ hd ≠ "node_modules" ∧ hd ≠ "vendor" := by
  induction roots with
  | nil => simp [collectF] at hp
  | cons e rest ih =>
    cases e with
    | file n =>
      simp only [collectF, List.mem_append] at hp
      rcases hp with hp | hp
      · split at hp
        · simp at hp
        · simp only [List.mem_singleton, List.nil_append] at hp
          rw [hp] at hptl
          cases hptl
          exact absurd rfl htl
      · exact ih hp
    | dir n cs =>
      simp only [collectF, List.mem_append] at hp
      rcases hp with hp | hp
      · split at hp
        · simp at hp
        · rename_i hcond
          obtain ⟨r, hr, hpr⟩ := collectF_below ign [n] cs p hp
          have hhd : hd = n := by
            rw [hpr] at hptl
            simpa using congrArg List.head? hptl.symm
          subst hhd
          simp only [List.nil_append, render, Bool.or_eq_true, beq_iff_eq,
            not_or] at hcond
          exact ⟨hcond.1.1, hcond.1.2, hcond.2⟩
      · exact ih hp

/-- C4 witness: the amended no-descent guarantee applied to a concrete
tree with a top-level ordinary directory. -/
theorem detect_prune_top_level_witness :
    "x" ≠ ".git" ∧ "x" ≠ "node_modules" ∧ "x" ≠ "vendor" := by
  refine detect_prune_top_level [] [FsEntry.dir "x" [FsEntry.file "f.js"]]
    ["x", "f.js"] ?_ "x" ["f.js"] rfl (by simp)
  simp [collectF, shouldIgnore, isCritical, render]
/-! ## Chunk splitter (`internal/artifact/artifact.go`, `chunkWriter`) -/

/-- Model of `chunkWriter.Write` acting on an open chunk: `closed` holds the contents
of the finished chunk files in numeric order, `cur` the open chunk's
bytes, `p` the incoming buffer.  Mirrors the Go control flow: if `p`
fits in the remaining space it is appended; a full chunk is closed via
`nextChunk` and the write retried; otherwise the fitting part is
written, the chunk closed, and the rest recursed on.  (For
`chunkSize = 0` the Go code never terminates; that case is guarded off
and out of scope — the deployer always passes 10 MiB.) -/
def cwWrite (s : Nat) (closed : List (List Nat)) (cur p : List Nat) :
    List (List Nat) × List Nat :=
  if s = 0 then (closed, cur ++ p)
  else if p.length ≤ s - cur.length then (closed, cur ++ p)
  else if s - cur.length = 0 then cwWrite s (closed ++ [cur]) [] p
  else
    cwWrite s (closed ++ [cur ++ p.take (s - cur.length)]) []
      (p.drop (s - cur.length))
termination_by (p.length, if s - cur.length = 0 then 1 else 0)
decreasing_by
  · apply Prod.Lex.right
    simp_all
  · apply Prod.Lex.left
    simp_all
    omega

/-- The splitter's state: finished chunk files plus the open one
(`none` before the first `Write`, i.e. before any chunk file exists). -/
structure CW where
  closed : List (List Nat)
  current : Option (List Nat)

/-- One `chunkWriter.Write` call (a `nil` current opens the first
chunk file first, like `nextChunk`). -/
def CW.write (s : Nat) (cw : CW) (p : List Nat) : CW :=
  let r := cwWrite s cw.closed (cw.current.getD []) p
  ⟨r.1, some r.2⟩

/-- The chunk files on disk after `Close`, in `ChunkPaths` numeric
order. -/
def CW.chunks (cw : CW) : List (List Nat) :=
  cw.closed ++ (match cw.current with | none => [] | some c => [c])

/-- Run a sequence of writes through a fresh `chunkWriter`. -/
def cwRun (s : Nat) (writes : List (List Nat)) : CW :=
  writes.foldl (CW.write s) ⟨[], none⟩

theorem cwWrite_flatten (s : Nat) (closed : List (List Nat))
    (cur p : List Nat) :
    ((cwWrite s closed cur p).1).flatten ++ (cwWrite s closed cur p).2 =
      closed.flatten ++ cur ++ p := by
  induction closed, cur, p using cwWrite.induct s with
  | case1 closed cur p h => simp [cwWrite, h]
  | case2 closed cur p h1 h2 =>
    rw [cwWrite, if_neg h1, if_pos h2]
    simp [List.append_assoc]
  | case3 closed cur p h1 h2 h3 ih =>
    rw [cwWrite, if_neg h1, if_neg h2, if_pos h3]
    simpa using ih
  | case4 closed cur p h1 h2 h3 ih =>
    rw [cwWrite, if_neg h1, if_neg h2, if_neg h3]
    rw [ih]
    simp [List.append_assoc]

theorem cwWrite_sizes (s : Nat) (closed : List (List Nat))
    (cur p : List Nat) (hs : 0 < s) :
    (∀ c ∈ closed, c.length = s) → cur.length ≤ s →
      (∀ c ∈ (cwWrite s closed cur p).1, c.length = s) ∧
        (cwWrite s closed cur p).2.length ≤ s := by
  induction closed, cur, p using cwWrite.induct s with
  | case1 closed cur p h => exact absurd h (by omega)
  | case2 closed cur p h1 h2 =>
    intro hcl hcur
    rw [cwWrite, if_neg h1, if_pos h2]
    refine ⟨hcl, ?_⟩
    simp only [List.length_append]
    omega
  | case3 closed cur p h1 h2 h3 ih =>
    intro hcl hcur
    rw [cwWrite, if_neg h1, if_neg h2, if_pos h3]
    refine ih ?_ (by simp)
    intro c hc
    rcases List.mem_append.mp hc with hc | hc
    · exact hcl c hc
    · simp only [List.mem_singleton] at hc
      subst hc
      omega
  | case4 closed cur p h1 h2 h3 ih =>
    intro hcl hcur
    rw [cwWrite, if_neg h1, if_neg h2, if_neg h3]
    refine ih ?_ (by simp)
    intro c hc
    rcases List.mem_append.mp hc with hc | hc
    · exact hcl c hc
    · simp only [List.mem_singleton] at hc
      subst hc
      simp only [List.length_append, List.length_take]
      omega

theorem cwWrite_small (s : Nat) (closed : List (List Nat))
    (cur p : List Nat) (h : p.length ≤ s - cur.length) :
    cwWrite s closed cur p = (closed, cur ++ p) := by
  rw [cwWrite]
  by_cases hs : s = 0
  · rw [if_pos hs]
  · rw [if_neg hs, if_pos h]
theorem CW.write_chunks_flatten (s : Nat) (acc : CW) (w : List Nat) :
    ((CW.write s acc w).chunks).flatten = acc.chunks.flatten ++ w := by
  have h := cwWrite_flatten s acc.closed (acc.current.getD []) w
  cases hc : acc.current with
  | none =>
    simp only [CW.write, CW.chunks, hc, Option.getD_none] at *
    simpa using h
  | some c =>
    simp only [CW.write, CW.chunks, hc, Option.getD_some] at *
    simpa [List.append_assoc] using h

theorem cwRun_flatten_aux (s : Nat) (writes : List (List Nat)) :
    ∀ acc : CW, ((writes.foldl (CW.write s) acc).chunks).flatten =
      acc.chunks.flatten ++ writes.flatten := by
  induction writes with
  | nil => intro acc; simp
  | cons w ws ih =>
    intro acc
    rw [List.foldl_cons, ih (CW.write s acc w), CW.write_chunks_flatten]
    simp [List.append_assoc]

theorem cwRun_sizes_aux (s : Nat) (hs : 0 < s) (writes : List (List Nat)) :
    ∀ acc : CW, (∀ c ∈ acc.closed, c.length = s) →
      (acc.current.getD []).length ≤ s →
      (∀ c ∈ (writes.foldl (CW.write s) acc).closed, c.length = s) ∧
        ((writes.foldl (CW.write s) acc).current.getD []).length ≤ s := by
  induction writes with
  | nil => intro acc h1 h2; exact ⟨h1, h2⟩
  | cons w ws ih =>
    intro acc h1 h2
    rw [List.foldl_cons]
    have hw := cwWrite_sizes s acc.closed (acc.current.getD []) w hs h1 h2
    exact ih (CW.write s acc w) hw.1 (by simpa [CW.write] using hw.2)

theorem cwRun_small_aux (s : Nat) (writes : List (List Nat)) :
    ∀ cur : Option (List Nat),
      (cur.getD []).length + writes.flatten.length ≤ s →
      writes.foldl (CW.write s) ⟨[], cur⟩ =
        ⟨[], if writes.isEmpty then cur
             else some (cur.getD [] ++ writes.flatten)⟩ := by
  induction writes with
  | nil => intro cur _; simp
  | cons w ws ih =>
    intro cur hle
    simp only [List.flatten_cons, List.length_append] at hle
    have hw : w.length ≤ s - (cur.getD []).length := by omega
    rw [List.foldl_cons]
    have hstep : CW.write s ⟨[], cur⟩ w = ⟨[], some (cur.getD [] ++ w)⟩ := by
      simp [CW.write, cwWrite_small s [] (cur.getD []) w hw]
    rw [hstep, ih (some (cur.getD [] ++ w))
      (by simp only [Option.getD_some, List.length_append]; omega)]
    cases hws : ws with
    | nil => simp
    | cons x xs => simp [List.append_assoc]

/-- C7: for every byte sequence pushed through the chunk splitter with a
positive chunk size `s` (the gzip stream arrives as an arbitrary
sequence of `Write` buffers), (a) concatenating the produced chunk
files in their numeric order reproduces the written bytes exactly,
(b) every chunk except possibly the last holds exactly `s` bytes, and
(c) when the (necessarily non-empty) archive fits in `s` bytes exactly
one chunk file is produced. -/
theorem chunkWriter_correct (s : Nat) (writes : List (List Nat))
    (hs : 0 < s) :
    ((cwRun s writes).chunks).flatten = writes.flatten ∧
      (∀ c ∈ (cwRun s writes).chunks.dropLast, c.length = s) ∧
      (0 < writes.flatten.length → writes.flatten.length ≤ s →
        (cwRun s writes).chunks.length = 1) := by
  refine ⟨?_, ?_, ?_⟩
  · have h := cwRun_flatten_aux s writes ⟨[], none⟩
    simpa [cwRun, CW.chunks] using h
  · have h := cwRun_sizes_aux s hs writes ⟨[], none⟩ (by simp) (by simp)
    intro c hc
    set res := writes.foldl (CW.write s) (⟨[], none⟩ : CW) with hres
    have hchunks : (cwRun s writes).chunks =
        res.closed ++ (match res.current with
          | none => [] | some x => [x]) := rfl
    rw [hchunks] at hc
    cases hcur : res.current with
    | none =>
      rw [hcur] at hc
      simp only [List.append_nil] at hc
      exact h.1 c (List.dropLast_subset _ hc)
    | some x =>
      rw [hcur] at hc
      rw [List.dropLast_concat] at hc
      exact h.1 c hc
  · intro hpos hle
    have h := cwRun_small_aux s writes none (by simpa using hle)
    have hne : writes.isEmpty = false := by
      cases writes with
      | nil => simp at hpos
      | cons w ws => rfl
    rw [hne] at h
    simp only [cwRun, h, CW.chunks]
    rfl

/-- C7 witness: the splitter guarantees at chunk size 3 over the writes
`[1,2]`, `[3,4]`. -/
theorem chunkWriter_correct_witness :
    ((cwRun 3 [[1, 2], [3, 4]]).chunks).flatten =
        ([[1, 2], [3, 4]] : List (List Nat)).flatten ∧
      (∀ c ∈ (cwRun 3 [[1, 2], [3, 4]]).chunks.dropLast, c.length = 3) ∧
      (0 < ([[1, 2], [3, 4]] : List (List Nat)).flatten.length →
        ([[1, 2], [3, 4]] : List (List Nat)).flatten.length ≤ 3 →
        (cwRun 3 [[1, 2], [3, 4]]).chunks.length = 1) :=
  chunkWriter_correct 3 [[1, 2], [3, 4]] (by decide)
/-! ## Tar headers (`Generator.CompressChunked`) -/

/-- Tar entry types used by the packer. -/
inductive TarType where
  | reg
  | dir
  | symlink
deriving Repr, DecidableEq

/-- The fields of `tar.Header` that `CompressChunked` sets. -/
structure TarHeader where
  name : String
  typeflag : TarType
  mode : Nat
  linkname : String
deriving Repr, DecidableEq

/-- Kind of a filesystem entry met by the packer walk. -/
inductive FKind where
  | reg
  | dir
  | symlink (target : String)
deriving Repr, DecidableEq

/-- The link-target rewrite of `CompressChunked`: an absolute target is
made relative to the link's directory exactly when `Rel(artifactDir,
target)` succeeds without escaping (`../` prefix or bare `..`); every
other target is kept verbatim. -/
def rewriteLinkTarget (artifactDir path target : String) : String :=
  if isAbsPath target then
    match goRel artifactDir target with
    | some relTarget =>
      if !(strHasPfx "../" relTarget) && relTarget ≠ ".." then
        match goRel (goDir path) target with
        | some portable => portable
        | none => target
      else target
    | none => target
  else target

/-- The tar header `CompressChunked` writes for an entry of kind `k` at
`path` under `artifactDir`: regular files get explicit mode `0774`,
directories `0775`, symlinks the rewritten link target. -/
def tarHeaderFor (artifactDir path : String) (k : FKind) : TarHeader :=
  let name := match goRel artifactDir path with
    | some r => r
    | none => path
  match k with
  | .symlink t => ⟨name, .symlink, 0, rewriteLinkTarget artifactDir path t⟩
  | .dir => ⟨name, .dir, 0o775, ""⟩
  | .reg => ⟨name, .reg, 0o774, ""⟩

/-- C6 counterexample: the packer emits regular files with mode `0774`
(`rwxrwxr--`), not the claimed `0664`. -/
theorem tar_reg_mode_counterexample :
    (tarHeaderFor "/art" "/art/f.txt" FKind.reg).mode = 0o774 ∧
      (tarHeaderFor "/art" "/art/f.txt" FKind.reg).mode ≠ 0o664 := by
  constructor
  · rfl
  · decide

/-- C6 (amended): every packed entry is emitted as: regular file →
`reg` with mode `0774`; directory → `dir` with mode `0775`; symlink →
`symlink` whose link target, when absolute and resolving inside the
artifact root, is rewritten to the path relative to the link's
directory. -/
theorem tar_headers (artifactDir path : String) (k : FKind) :
    (k = FKind.reg → (tarHeaderFor artifactDir path k).typeflag = .reg ∧
      (tarHeaderFor artifactDir path k).mode = 0o774) ∧
    (k = FKind.dir → (tarHeaderFor artifactDir path k).typeflag = .dir ∧
      (tarHeaderFor artifactDir path k).mode = 0o775) ∧
    (∀ t, k = FKind.symlink t →
      (tarHeaderFor artifactDir path k).typeflag = .symlink ∧
      (isAbsPath t = true → ∀ rt, goRel artifactDir t = some rt →
        strHasPfx "../" rt = false → rt ≠ ".." →
        ∀ pt, goRel (goDir path) t = some pt →
        (tarHeaderFor artifactDir path k).linkname = pt)) := by
  refine ⟨?_, ?_, ?_⟩
  · rintro rfl; exact ⟨rfl, rfl⟩
  · rintro rfl; exact ⟨rfl, rfl⟩
  · rintro t rfl
    refine ⟨rfl, ?_⟩
    intro habs rt hrt hpfx hdots pt hpt
    simp [tarHeaderFor, rewriteLinkTarget, habs, hrt, hpfx, hdots, hpt]

/-- C6 witness: a symlink `/art/a/link → /art/shared/x` inside the
artifact is rewritten to the relative target `../shared/x`. -/
theorem tar_headers_witness :
    (tarHeaderFor "/art" "/art/a/link" (FKind.symlink "/art/shared/x")).linkname
      = "../shared/x" :=
  ((tar_headers "/art" "/art/a/link" (FKind.symlink "/art/shared/x")).2.2
    "/art/shared/x" rfl).2 rfl "shared/x" (by rfl) (by rfl) (by decide)
    "../shared/x" (by rfl)
/-! ## Remote shell command construction (`ssh.go`, deployer) -/

/-- Go's `%q` applied to a path string: wrap in double quotes, escaping
quotes and backslashes (the cases that arise for path strings). -/
def goQuote (s : String) : String :=
  "\"" ++ String.mk ((s.data.map
    (fun c => if c = '"' || c = '\\' then ['\\', c] else [c])).flatten)
    ++ "\""

/-- Model of `Client.CreateSymlink` step 1: `ln -sfn <target> <link>.tmp` with the
paths interpolated raw. -/
def createSymlinkLnCmd (target linkPath : String) : String :=
  "ln -sfn " ++ target ++ " " ++ (linkPath ++ ".tmp")

/-- Model of `Client.CreateSymlink` step 2: `mv -Tf <link>.tmp <link>`, raw. -/
def createSymlinkMvCmd (linkPath : String) : String :=
  "mv -Tf " ++ (linkPath ++ ".tmp") ++ " " ++ linkPath

/-- Model of `Client.ExtractArchive`: `tar -xzf %q -C %q`. -/
def extractArchiveCmd (archivePath targetDir : String) : String :=
  "tar -xzf " ++ goQuote archivePath ++ " -C " ++ goQuote targetDir

/-- Model of `Client.CleanupOldReleases` deletion: `rm -rf -- %q`. -/
def cleanupRmCmd (releaseDir : String) : String :=
  "rm -rf -- " ++ goQuote releaseDir

/-- Model of `Deployer.Deploy` chunk reassembly:
`cat %q.* > %q && rm -f %q.*`. -/
def reassembleCmd (remoteArchive : String) : String :=
  "cat " ++ goQuote remoteArchive ++ ".* > " ++ goQuote remoteArchive
    ++ " && rm -f " ++ goQuote remoteArchive ++ ".*"

/-- Model of `Deployer.Deploy` archive cleanup after a failed extraction:
`rm -f <archive>`, raw. -/
def extractFailCleanupCmd (remoteArchive : String) : String :=
  "rm -f " ++ remoteArchive

/-- Model of `Deployer.runHook` command wrapping: `cd <app> && <hook>`, raw. -/
def wrappedHookCmd (appPath hook : String) : String :=
  "cd " ++ appPath ++ " && " ++ hook

/-- Does `a` occur as a contiguous character subsequence of `b`? -/
def containsSeq (a b : List Char) : Bool :=
  (List.range (b.length + 1)).any (fun i => a.isPrefixOf (b.drop i))

/-- A command string embeds a path in POSIX-safe quoted form when the
`%q` rendering of the path occurs in it verbatim. -/
def embedsQuoted (cmd p : String) : Bool :=
  containsSeq (goQuote p).data cmd.data

theorem containsSeq_append (a x y : List Char) :
    containsSeq a (x ++ a ++ y) = true := by
  unfold containsSeq
  rw [List.any_eq_true]
  refine ⟨x.length, List.mem_range.mpr ?_, ?_⟩
  · simp only [List.length_append]
    omega
  · rw [List.append_assoc, List.drop_left]
    exact List.isPrefixOf_iff_prefix.mpr (List.prefix_append a y)

theorem embedsQuoted_append (x y p : String) :
    embedsQuoted (x ++ goQuote p ++ y) p = true := by
  unfold embedsQuoted
  have : (x ++ goQuote p ++ y).data = x.data ++ (goQuote p).data ++ y.data := by
    simp [String.data_append]
  rw [this]
  exact containsSeq_append _ _ _

/-- C9 counterexample: `CreateSymlink` and the hook wrapper interpolate
the user-derived release path raw — the `%q`-quoted rendering of the
path occurs in neither command string. -/
theorem shell_quoting_counterexample :
    embedsQuoted
      (createSymlinkLnCmd "/srv/app/releases/20260102-120000"
        "/srv/app/current")
      "/srv/app/releases/20260102-120000" = false ∧
    embedsQuoted
      (wrappedHookCmd "/srv/app/releases/20260102-120000/app"
        "php artisan migrate")
      "/srv/app/releases/20260102-120000/app" = false := by
  constructor
  · decide
  · decide

/-- C9 (amended): quoting is partial — the extraction, reassembly and
retention-deletion commands embed remote paths `%q`-quoted, while
`CreateSymlink` (both steps), the failed-extraction cleanup and the
hook wrapper interpolate the raw strings. -/
theorem shell_quoting_amended (p q : String) :
    embedsQuoted (extractArchiveCmd p q) p = true ∧
    embedsQuoted (extractArchiveCmd p q) q = true ∧
    embedsQuoted (reassembleCmd p) p = true ∧
    embedsQuoted (cleanupRmCmd p) p = true ∧
    createSymlinkLnCmd p q = "ln -sfn " ++ p ++ (" " ++ (q ++ ".tmp")) ∧
    createSymlinkMvCmd p = "mv -Tf " ++ ((p ++ ".tmp") ++ (" " ++ p)) ∧
    extractFailCleanupCmd p = "rm -f " ++ p ∧
    wrappedHookCmd p q = "cd " ++ p ++ (" && " ++ q) := by
  refine ⟨?_, ?_, ?_, ?_, ?_, ?_, rfl, ?_⟩
  · have h : extractArchiveCmd p q =
        "tar -xzf " ++ goQuote p ++ (" -C " ++ goQuote q) := by
      simp [extractArchiveCmd, String.append_assoc]
    rw [h]
    exact embedsQuoted_append _ _ _
  · have h : extractArchiveCmd p q =
        ("tar -xzf " ++ goQuote p ++ " -C ") ++ goQuote q ++ "" := by
      simp [extractArchiveCmd, String.append_assoc]
    rw [h]
    exact embedsQuoted_append _ _ _
  · have h : reassembleCmd p =
        "cat " ++ goQuote p ++ (".* > " ++ goQuote p
          ++ " && rm -f " ++ goQuote p ++ ".*") := by
      simp [reassembleCmd, String.append_assoc]
    rw [h]
    exact embedsQuoted_append _ _ _
  · have h : cleanupRmCmd p = "rm -rf -- " ++ goQuote p ++ "" := by
      simp [cleanupRmCmd, String.append_assoc]
    rw [h]
    exact embedsQuoted_append _ _ _
  · simp [createSymlinkLnCmd, String.append_assoc]
  · simp [createSymlinkMvCmd, ← String.append_assoc]
  · simp [wrappedHookCmd, String.append_assoc]

/-! ## Descending release sort (`state.SortReleases`, retention sort)

`SortReleases` itself ships outside the embedded sources (only its test
and callers are present); per its test and the spec it sorts release
names in descending lexicographic order.  Both retention
(`CleanupOldReleases`) and `Rollback` sort descending; ties are
impossible (directory names are unique), so any descending sort is
equivalent to the bubble sorts in the source. -/

/-- Executable lexicographic string comparison (byte order on the
ASCII release names, like Go's `sort.StringSlice`). -/
def strLeb (a b : String) : Bool :=
  decide (a.toList ≤ b.toList)

theorem strLeb_iff (a b : String) : strLeb a b = true ↔ a ≤ b := by
  rw [String.le_iff_toList_le]
  exact decide_eq_true_iff

/-- Modelled from the spec: `release_sort` / `state.SortReleases`,
descending lexicographic order (insertion sort). -/
def insertDesc (x : String) : List String → List String
  | [] => [x]
  | y :: ys => if strLeb y x then x :: y :: ys else y :: insertDesc x ys

/-- Modelled from the spec: descending lexicographic release sort. -/
def sortDesc (l : List String) : List String :=
  l.foldr insertDesc []

/-- Descending sortedness. -/
def SortedGe (l : List String) : Prop :=
  l.Pairwise (fun a b => b ≤ a)

theorem mem_insertDesc (x a : String) (l : List String) :
    a ∈ insertDesc x l ↔ a = x ∨ a ∈ l := by
  induction l with
  | nil => simp [insertDesc]
  | cons y ys ih =>
    cases h : strLeb y x
    · simp only [insertDesc, h, Bool.false_eq_true, if_false,
        List.mem_cons, ih]
      tauto
    · simp [insertDesc, h]

theorem mem_sortDesc (a : String) (l : List String) :
    a ∈ sortDesc l ↔ a ∈ l := by
  induction l with
  | nil => simp [sortDesc]
  | cons y ys ih =>
    simp only [sortDesc, List.foldr_cons, mem_insertDesc, List.mem_cons]
    rw [← sortDesc, ih]

theorem sortedGe_insertDesc (x : String) (l : List String)
    (h : SortedGe l) : SortedGe (insertDesc x l) := by
  induction l with
  | nil => simp [insertDesc, SortedGe]
  | cons y ys ih =>
    rcases List.pairwise_cons.mp h with ⟨hy, hys⟩
    cases hle : strLeb y x
    · have hxy : ¬ y ≤ x := by
        rw [← strLeb_iff]
        simp [hle]
      rw [insertDesc, if_neg (by simp [hle])]
      refine List.pairwise_cons.mpr ⟨?_, ih hys⟩
      intro b hb
      rcases (mem_insertDesc x b ys).mp hb with rfl | hb
      · exact le_of_not_le hxy
      · exact hy b hb
    · have hxy : y ≤ x := (strLeb_iff y x).mp hle
      rw [insertDesc, if_pos hle]
      refine List.pairwise_cons.mpr ⟨?_, h⟩
      intro b hb
      rcases List.mem_cons.mp hb with rfl | hb
      · exact hxy
      · exact le_trans (hy b hb) hxy

theorem sortedGe_sortDesc (l : List String) : SortedGe (sortDesc l) := by
  induction l with
  | nil => simp [sortDesc, SortedGe]
  | cons y ys ih => exact sortedGe_insertDesc y (sortDesc ys) ih

theorem find?_sortedGe_max (l : List String) (p : String → Bool)
    (hs : SortedGe l) (x : String) (hx : l.find? p = some x) :
    x ∈ l ∧ p x = true ∧ ∀ y ∈ l, p y = true → y ≤ x := by
  induction l with
  | nil => simp [List.find?] at hx
  | cons a as ih =>
    rcases List.pairwise_cons.mp hs with ⟨ha, has⟩
    rw [List.find?] at hx
    cases hpa : p a with
    | true =>
      rw [hpa] at hx
      simp only [Option.some.injEq] at hx
      subst hx
      refine ⟨by simp, hpa, ?_⟩
      intro y hy _
      rcases List.mem_cons.mp hy with rfl | hy
      · exact le_refl _
      · exact ha y hy
    | false =>
      rw [hpa] at hx
      obtain ⟨hmem, hpx, hmax⟩ := ih has hx
      refine ⟨List.mem_cons_of_mem _ hmem, hpx, ?_⟩
      intro y hy hpy
      rcases List.mem_cons.mp hy with rfl | hy
      · rw [hpa] at hpy; cases hpy
      · exact hmax y hy hpy

theorem head_sortedGe_max (h : String) (t : List String)
    (hs : SortedGe (h :: t)) : ∀ y ∈ h :: t, y ≤ h := by
  intro y hy
  rcases List.mem_cons.mp hy with rfl | hy
  · exact le_refl _
  · exact (List.pairwise_cons.mp hs).1 y hy

/-- The retention survivor set (`CleanupOldReleases`): unchanged when at
most `n` releases exist, else the `n` newest by descending sort. -/
def keepNewestReleases (n : Nat) (l : List String) : List String :=
  if l.length ≤ n then l else (sortDesc l).take n

theorem mem_keepNewestReleases (n : Nat) (hn : 0 < n) (l : List String)
    (v : String) (hv : v ∈ l) (hmax : ∀ y ∈ l, y ≤ v) :
    v ∈ keepNewestReleases n l := by
  unfold keepNewestReleases
  split
  · exact hv
  · have hvs : v ∈ sortDesc l := (mem_sortDesc v l).mpr hv
    cases hsd : sortDesc l with
    | nil => rw [hsd] at hvs; simp at hvs
    | cons h t =>
      have hsge := sortedGe_sortDesc l
      rw [hsd] at hsge hvs
      have hhv : h = v := by
        have h1 : h ≤ v := hmax h ((mem_sortDesc h l).mp (by rw [hsd]; simp))
        have h2 : v ≤ h := head_sortedGe_max h t hsge v hvs
        exact le_antisymm h1 h2
      subst hhv
      cases n with
      | zero => omega
      | succ m => simp [List.take]

/-! ## Remote state and the release coordinator (deployer `Deploy`) -/

/-- The remote filesystem facts the coordinator manipulates, under the
configured `remote_path`: the `.versa.lock` directory, the parsed
`deploy.lock` content (absent = no file), the directory names under
`releases/`, the subset of release directories holding `manifest.json`,
and the target the `current` symlink stores (absent = no link). -/
structure RemoteState where
  lockDirExists : Bool
  deployLock : Option DeployLock
  releases : List String
  manifests : List String
  currentTarget : Option String
deriving Repr, DecidableEq

/-- The configuration fields of `Environment` the model needs. -/
structure Env where
  remotePath : String
deriving Repr, DecidableEq

/-- The deployer flags (`dryRun`, `initialDeploy`, `force`). -/
structure DeployArgs where
  dryRun : Bool
  initialDeploy : Bool
  force : Bool
deriving Repr, DecidableEq

/-- Outcomes of the external/fallible calls one `Deploy` run makes, in
program order, plus the values the run computes locally (commit hash,
release version, change set, hook exit statuses).  `hookResults` lists
the success of each hook command in execution order. -/
structure RunOracle where
  toolsOk : Bool
  repoOk : Bool
  cleanOk : Bool
  cloneOk : Bool
  commitOk : Bool
  connectOk : Bool
  fetchOk : Bool
  detectOk : Bool
  buildOk : Bool
  manifestOk : Bool
  mkReleasesOk : Bool
  diskOk : Bool
  compressOk : Bool
  uploadOk : Bool
  reassembleOk : Bool
  extractOk : Bool
  finalizeOk : Bool
  sharedOk : Bool
  preservedOk : Bool
  activateOk : Bool
  rollbackOk : Bool
  writeLockOk : Bool
  cleanupOk : Bool
  commitHash : String
  releaseVersion : String
  timestamp : String
  hasChanges : Bool
  allFileHashes : List (String × String)
  composerHash : String
  packageHash : String
  goModHash : String
  hookResults : List Bool
deriving Repr, DecidableEq

/-- The failure exits of a `Deploy` run.  `lockHeld` carries the
`VersaError` code and message `AcquireLock` builds. -/
inductive DeployErr where
  | toolMissing
  | notARepository
  | dirtyTree
  | cloneFailed
  | commitFailed
  | connectFailed
  | lockHeld (code msg : String)
  | fetchFailed
  | stateMissing
  | detectFailed
  | buildFailed
  | manifestFailed
  | mkdirFailed
  | diskSpace
  | compressFailed
  | uploadFailed
  | reassembleFailed
  | extractFailed
  | finalizeFailed
  | sharedFailed
  | preservedFailed
  | activateFailed
  | hookFailedRolledBack (prev : String)
  | hookRollbackAlsoFailed
  | hookFailedNoPrev
deriving Repr, DecidableEq

/-- Model of `Client.AcquireLock`: a single SFTP `Mkdir` of the lock directory,
which fails exactly when the directory already exists; the failure is
wrapped as `verserrors.New(CodeConfigInvalid, "Deployment lock already
held", …)`. -/
def acquireLock (st : RemoteState) : Except DeployErr Unit × RemoteState :=
  if st.lockDirExists then
    (.error (.lockHeld "CONFIG_INVALID" "Deployment lock already held"), st)
  else (.ok (), { st with lockDirExists := true })

/-- Model of `Client.ReleaseLock` (the deferred `rmdir`). -/
def releaseLock (st : RemoteState) : RemoteState :=
  { st with lockDirExists := false }

/-- FINALIZE_DIR: `mv -T releases/<ver>.staging releases/<ver>` — the
release directory appears, containing the packed `manifest.json`. -/
def finalizeState (st : RemoteState) (ver : String) : RemoteState :=
  { st with releases := st.releases ++ [ver],
            manifests := st.manifests ++ [ver] }

/-- ACTIVATE: `current` switched to the absolute
`<remote_path>/releases/<ver>` (note: no `/app` suffix). -/
def activateState (env : Env) (st : RemoteState) (ver : String) :
    RemoteState :=
  { st with currentTarget := some (env.remotePath ++ "/releases/" ++ ver) }

/-- WRITE_STATE: upload of the freshly computed `deploy.lock`; a failed
upload is logged and swallowed. -/
def writeStateStep (ora : RunOracle) (ver : String) (st : RemoteState) :
    RemoteState :=
  if ora.writeLockOk then
    { st with deployLock := some (DeployLock.new ora.timestamp
        ora.commitHash ver ora.allFileHashes ora.composerHash
        ora.packageHash ora.goModHash) }
  else st

/-- RETENTION: `CleanupOldReleases(releasesDir, 5)`; a failure is logged
and swallowed. -/
def retentionStep (ora : RunOracle) (st : RemoteState) : RemoteState :=
  if ora.cleanupOk then
    { st with
        releases := keepNewestReleases 5 st.releases,
        manifests := st.manifests.filter
          (fun m => decide (m ∈ keepNewestReleases 5 st.releases)) }
  else st

/-- Model of `Deployer.rollback` (hook-failure path): `current` re-pointed at the
previous lock's release via the relative target `releases/<dir>`. -/
def rollbackState (st : RemoteState) (prevDir : String) : RemoteState :=
  { st with currentTarget := some ("releases/" ++ prevDir) }

/-- The locked tail of `Deployer.Deploy` (steps 7–15, from change
detection to retention), with the deferred lock release applied on
every exit.  `prev` is the parsed previous `deploy.lock` (or `none` on
an initial deploy).  Hook processing follows `runHook`: the first
failing hook triggers `rollback` to the previous lock's release when a
previous lock exists, and the run aborts before `deploy.lock` is
written. -/
def deployLocked (env : Env) (args : DeployArgs) (ora : RunOracle)
    (st : RemoteState) (prev : Option DeployLock) :
    Except DeployErr Unit × RemoteState :=
  if !ora.detectOk then (.error .detectFailed, releaseLock st)
  else if !ora.hasChanges && !args.force then (.ok (), releaseLock st)
  else if args.dryRun then (.ok (), releaseLock st)
  else if !ora.buildOk then (.error .buildFailed, releaseLock st)
  else if !ora.manifestOk then (.error .manifestFailed, releaseLock st)
  else if !ora.mkReleasesOk then (.error .mkdirFailed, releaseLock st)
  else if !ora.diskOk then (.error .diskSpace, releaseLock st)
  else if !ora.compressOk then (.error .compressFailed, releaseLock st)
  else if !ora.uploadOk then (.error .uploadFailed, releaseLock st)
  else if !ora.reassembleOk then (.error .reassembleFailed, releaseLock st)
  else if !ora.extractOk then (.error .extractFailed, releaseLock st)
  else if !ora.finalizeOk then (.error .finalizeFailed, releaseLock st)
  else if !ora.sharedOk then
    (.error .sharedFailed,
     releaseLock (finalizeState st ora.releaseVersion))
  else if prev.isSome && !ora.preservedOk then
    (.error .preservedFailed,
     releaseLock (finalizeState st ora.releaseVersion))
  else if !ora.activateOk then
    (.error .activateFailed,
     releaseLock (finalizeState st ora.releaseVersion))
  else if ora.hookResults.all (fun b => b) then
    (.ok (),
     releaseLock (retentionStep ora (writeStateStep ora ora.releaseVersion
       (activateState env (finalizeState st ora.releaseVersion)
         ora.releaseVersion))))
  else
    match prev with
    | some pl =>
      if ora.rollbackOk then
        (.error (.hookFailedRolledBack pl.lastDeploy.releaseDir),
         releaseLock (rollbackState
           (activateState env (finalizeState st ora.releaseVersion)
             ora.releaseVersion) pl.lastDeploy.releaseDir))
      else
        (.error .hookRollbackAlsoFailed,
         releaseLock (activateState env
           (finalizeState st ora.releaseVersion) ora.releaseVersion))
    | none =>
      (.error .hookFailedNoPrev,
       releaseLock (activateState env
         (finalizeState st ora.releaseVersion) ora.releaseVersion))

/-- Model of `Deployer.Deploy`: local preflight, repository snapshot, connection,
lock acquisition, `deploy.lock` fetch, then the locked pipeline. -/
def deploy (env : Env) (args : DeployArgs) (ora : RunOracle)
    (st : RemoteState) : Except DeployErr Unit × RemoteState :=
  if !ora.toolsOk then (.error .toolMissing, st)
  else if !ora.repoOk then (.error .notARepository, st)
  else if !ora.cleanOk then (.error .dirtyTree, st)
  else if !ora.cloneOk then (.error .cloneFailed, st)
  else if !ora.commitOk then (.error .commitFailed, st)
  else if !ora.connectOk then (.error .connectFailed, st)
  else if st.lockDirExists then
    (.error (.lockHeld "CONFIG_INVALID" "Deployment lock already held"), st)
  else if !ora.fetchOk then
    (.error .fetchFailed, releaseLock { st with lockDirExists := true })
  else if st.deployLock.isNone && !args.initialDeploy then
    (.error .stateMissing, releaseLock { st with lockDirExists := true })
  else
    deployLocked env args ora { st with lockDirExists := true } st.deployLock

/-- Model of `Deployer.Rollback`: read `current`, list `releases/`, require at
least two, sort descending, switch `current` to the first entry that is
not the current release (via a `releases/<dir>`-relative target). -/
def rollbackOp (env : Env) (st : RemoteState) (symlinkOk : Bool) :
    Except String Unit × RemoteState :=
  match st.currentTarget with
  | none => (.error "failed to read current symlink", st)
  | some cur =>
    if st.releases.length < 2 then
      (.error "no previous release to rollback to", st)
    else
      match (sortDesc st.releases).find? (fun r => r != goPathBase cur) with
      | none => (.error "could not determine previous release", st)
      | some prev =>
        if symlinkOk then
          (.ok (), { st with currentTarget := some ("releases/" ++ prev) })
        else (.error "failed to atomically switch symlink", st)

/-! ## Concrete sample inputs shared by the coordinator theorems -/

/-- A sample environment (`remote_path /srv/app`). -/
def sampleEnv : Env := ⟨"/srv/app"⟩

/-- Flags of an initial deploy (no dry run, no force). -/
def sampleArgsInit : DeployArgs :=
  { dryRun := false, initialDeploy := true, force := false }

/-- An oracle where every external call succeeds and one hook runs
successfully. -/
def oraBase : RunOracle where
  toolsOk := true
  repoOk := true
  cleanOk := true
  cloneOk := true
  commitOk := true
  connectOk := true
  fetchOk := true
  detectOk := true
  buildOk := true
  manifestOk := true
  mkReleasesOk := true
  diskOk := true
  compressOk := true
  uploadOk := true
  reassembleOk := true
  extractOk := true
  finalizeOk := true
  sharedOk := true
  preservedOk := true
  activateOk := true
  rollbackOk := true
  writeLockOk := true
  cleanupOk := true
  commitHash := "abc123def"
  releaseVersion := "20260102-120000"
  timestamp := "2026-01-02T12:00:00Z"
  hasChanges := true
  allFileHashes := [("index.php", "sha256:aa")]
  composerHash := ""
  packageHash := ""
  goModHash := ""
  hookResults := [true]

/-- An empty remote (`remote_path` freshly created). -/
def sampleState0 : RemoteState := ⟨false, none, [], [], none⟩

/-- All local-side and connection steps of a run succeed. -/
def LocalOk (ora : RunOracle) : Prop :=
  ora.toolsOk = true ∧ ora.repoOk = true ∧ ora.cleanOk = true ∧
  ora.cloneOk = true ∧ ora.commitOk = true ∧ ora.connectOk = true ∧
  ora.fetchOk = true

/-- All remote pipeline steps through ACTIVATE succeed. -/
def PipelineOk (ora : RunOracle) : Prop :=
  ora.detectOk = true ∧ ora.buildOk = true ∧ ora.manifestOk = true ∧
  ora.mkReleasesOk = true ∧ ora.diskOk = true ∧ ora.compressOk = true ∧
  ora.uploadOk = true ∧ ora.reassembleOk = true ∧ ora.extractOk = true ∧
  ora.finalizeOk = true ∧ ora.sharedOk = true ∧ ora.preservedOk = true ∧
  ora.activateOk = true

@[simp] theorem releaseLock_currentTarget (st : RemoteState) :
    (releaseLock st).currentTarget = st.currentTarget := rfl

@[simp] theorem releaseLock_manifests (st : RemoteState) :
    (releaseLock st).manifests = st.manifests := rfl

@[simp] theorem releaseLock_releases (st : RemoteState) :
    (releaseLock st).releases = st.releases := rfl

@[simp] theorem releaseLock_deployLock (st : RemoteState) :
    (releaseLock st).deployLock = st.deployLock := rfl

@[simp] theorem releaseLock_lockDirExists (st : RemoteState) :
    (releaseLock st).lockDirExists = false := rfl

@[simp] theorem retentionStep_currentTarget (ora : RunOracle)
    (st : RemoteState) :
    (retentionStep ora st).currentTarget = st.currentTarget := by
  unfold retentionStep; split <;> rfl

@[simp] theorem retentionStep_deployLock (ora : RunOracle)
    (st : RemoteState) :
    (retentionStep ora st).deployLock = st.deployLock := by
  unfold retentionStep; split <;> rfl

@[simp] theorem writeStateStep_currentTarget (ora : RunOracle)
    (v : String) (st : RemoteState) :
    (writeStateStep ora v st).currentTarget = st.currentTarget := by
  unfold writeStateStep; split <;> rfl

@[simp] theorem writeStateStep_manifests (ora : RunOracle)
    (v : String) (st : RemoteState) :
    (writeStateStep ora v st).manifests = st.manifests := by
  unfold writeStateStep; split <;> rfl

@[simp] theorem writeStateStep_releases (ora : RunOracle)
    (v : String) (st : RemoteState) :
    (writeStateStep ora v st).releases = st.releases := by
  unfold writeStateStep; split <;> rfl

@[simp] theorem activateState_currentTarget (env : Env)
    (st : RemoteState) (v : String) :
    (activateState env st v).currentTarget =
      some (env.remotePath ++ "/releases/" ++ v) := rfl

@[simp] theorem activateState_manifests (env : Env) (st : RemoteState)
    (v : String) : (activateState env st v).manifests = st.manifests := rfl

@[simp] theorem activateState_releases (env : Env) (st : RemoteState)
    (v : String) : (activateState env st v).releases = st.releases := rfl

@[simp] theorem finalizeState_manifests (st : RemoteState) (v : String) :
    (finalizeState st v).manifests = st.manifests ++ [v] := rfl

@[simp] theorem finalizeState_releases (st : RemoteState) (v : String) :
    (finalizeState st v).releases = st.releases ++ [v] := rfl

theorem mem_retentionStep_of (ora : RunOracle) (v : String)
    (st : RemoteState) (hm : v ∈ st.manifests) (hr : v ∈ st.releases)
    (hmax : ∀ y ∈ st.releases, y ≤ v) :
    v ∈ (retentionStep ora st).manifests ∧
      v ∈ (retentionStep ora st).releases := by
  have hkeep : v ∈ keepNewestReleases 5 st.releases :=
    mem_keepNewestReleases 5 (by omega) _ _ hr hmax
  unfold retentionStep
  split
  · exact ⟨List.mem_filter.mpr ⟨by simpa using hm, by simpa using hkeep⟩,
      by simpa using hkeep⟩
  · exact ⟨hm, hr⟩

set_option maxHeartbeats 2000000 in
theorem deployLocked_ok_post (env : Env) (args : DeployArgs)
    (ora : RunOracle) (st : RemoteState) (prev : Option DeployLock)
    (st2 : RemoteState)
    (heq : deployLocked env args ora st prev = (.ok (), st2))
    (hch : (ora.hasChanges || args.force) = true)
    (hdry : args.dryRun = false)
    (hfresh : ∀ r ∈ st.releases, r ≤ ora.releaseVersion) :
    st2.currentTarget =
        some (env.remotePath ++ "/releases/" ++ ora.releaseVersion) ∧
      ora.releaseVersion ∈ st2.manifests ∧
      ora.releaseVersion ∈ st2.releases ∧
      st2.lockDirExists = false := by
  have hncond : (!ora.hasChanges && !args.force) = false := by
    revert hch
    cases ora.hasChanges <;> cases args.force <;> simp
  unfold deployLocked at heq
  have hdet : ora.detectOk = true := by
    by_contra hc
    have h0 : ora.detectOk = false := by revert hc; cases ora.detectOk <;> simp
    rw [if_pos (by simp [h0])] at heq
    exact Except.noConfusion (congrArg Prod.fst heq)
  rw [if_neg (by simp [hdet])] at heq
  rw [if_neg (by simp [hncond])] at heq
  rw [if_neg (by simp [hdry])] at heq
  have hbuild : ora.buildOk = true := by
    by_contra hc
    have h0 : ora.buildOk = false := by revert hc; cases ora.buildOk <;> simp
    rw [if_pos (by simp [h0])] at heq
    exact Except.noConfusion (congrArg Prod.fst heq)
  rw [if_neg (by simp [hbuild])] at heq
  have hman : ora.manifestOk = true := by
    by_contra hc
    have h0 : ora.manifestOk = false := by revert hc; cases ora.manifestOk <;> simp
    rw [if_pos (by simp [h0])] at heq
    exact Except.noConfusion (congrArg Prod.fst heq)
  rw [if_neg (by simp [hman])] at heq
  have hmkr : ora.mkReleasesOk = true := by
    by_contra hc
    have h0 : ora.mkReleasesOk = false := by revert hc; cases ora.mkReleasesOk <;> simp
    rw [if_pos (by simp [h0])] at heq
    exact Except.noConfusion (congrArg Prod.fst heq)
  rw [if_neg (by simp [hmkr])] at heq
  have hdisk : ora.diskOk = true := by
    by_contra hc
    have h0 : ora.diskOk = false := by revert hc; cases ora.diskOk <;> simp
    rw [if_pos (by simp [h0])] at heq
    exact Except.noConfusion (congrArg Prod.fst heq)
  rw [if_neg (by simp [hdisk])] at heq
  have hcomp2 : ora.compressOk = true := by
    by_contra hc
    have h0 : ora.compressOk = false := by revert hc; cases ora.compressOk <;> simp
    rw [if_pos (by simp [h0])] at heq
    exact Except.noConfusion (congrArg Prod.fst heq)
  rw [if_neg (by simp [hcomp2])] at heq
  have hupl : ora.uploadOk = true := by
    by_contra hc
    have h0 : ora.uploadOk = false := by revert hc; cases ora.uploadOk <;> simp
    rw [if_pos (by simp [h0])] at heq
    exact Except.noConfusion (congrArg Prod.fst heq)
  rw [if_neg (by simp [hupl])] at heq
  have hreas : ora.reassembleOk = true := by
    by_contra hc
    have h0 : ora.reassembleOk = false := by revert hc; cases ora.reassembleOk <;> simp
    rw [if_pos (by simp [h0])] at heq
    exact Except.noConfusion (congrArg Prod.fst heq)
  rw [if_neg (by simp [hreas])] at heq
  have hextr : ora.extractOk = true := by
    by_contra hc
    have h0 : ora.extractOk = false := by revert hc; cases ora.extractOk <;> simp
    rw [if_pos (by simp [h0])] at heq
    exact Except.noConfusion (congrArg Prod.fst heq)
  rw [if_neg (by simp [hextr])] at heq
  have hfin : ora.finalizeOk = true := by
    by_contra hc
    have h0 : ora.finalizeOk = false := by revert hc; cases ora.finalizeOk <;> simp
    rw [if_pos (by simp [h0])] at heq
    exact Except.noConfusion (congrArg Prod.fst heq)
  rw [if_neg (by simp [hfin])] at heq
  have hshared : ora.sharedOk = true := by
    by_contra hc
    have h0 : ora.sharedOk = false := by revert hc; cases ora.sharedOk <;> simp
    rw [if_pos (by simp [h0])] at heq
    exact Except.noConfusion (congrArg Prod.fst heq)
  rw [if_neg (by simp [hshared])] at heq
  have hpres : (prev.isSome && !ora.preservedOk) = false := by
    by_contra hc
    have h0 : (prev.isSome && !ora.preservedOk) = true := by
      revert hc; cases (prev.isSome && !ora.preservedOk) <;> simp
    rw [if_pos (by simp [h0])] at heq
    exact Except.noConfusion (congrArg Prod.fst heq)
  rw [if_neg (by simp [hpres])] at heq
  have hact : ora.activateOk = true := by
    by_contra hc
    have h0 : ora.activateOk = false := by revert hc; cases ora.activateOk <;> simp
    rw [if_pos (by simp [h0])] at heq
    exact Except.noConfusion (congrArg Prod.fst heq)
  rw [if_neg (by simp [hact])] at heq
  have hall : ora.hookResults.all (fun b => b) = true := by
    by_contra hc
    have h0 : ora.hookResults.all (fun b => b) = false := by
      revert hc; cases ora.hookResults.all (fun b => b) <;> simp
    rw [if_neg (by simp [h0])] at heq
    cases prev with
    | none => simp at heq
    | some pl => cases hrb : ora.rollbackOk <;> simp [hrb] at heq
  rw [if_pos (by simp [hall])] at heq
  have hst2 : st2 = releaseLock (retentionStep ora
      (writeStateStep ora ora.releaseVersion
        (activateState env (finalizeState st ora.releaseVersion)
          ora.releaseVersion))) := by
    have hcomp := congrArg Prod.snd heq
    simpa using hcomp.symm
  subst hst2
  have hmem := mem_retentionStep_of ora ora.releaseVersion
    (writeStateStep ora ora.releaseVersion
      (activateState env (finalizeState st ora.releaseVersion)
        ora.releaseVersion))
    (by simp) (by simp)
    (by
      simp only [writeStateStep_releases, activateState_releases,
        finalizeState_releases]
      intro y hy
      rcases List.mem_append.mp hy with hy | hy
      · exact hfresh y hy
      · simp only [List.mem_singleton] at hy
        exact le_of_eq hy)
  exact ⟨by simp, by simpa using hmem.1, by simpa using hmem.2, by simp⟩

/-- C1 counterexample: a complete successful run on a concrete input
after which `readlink(current)` resolves to `releases/<ver>` itself —
not to `releases/<ver>/app` as claimed (the activation target is built
without the `app` suffix). -/
theorem deploy_current_counterexample :
    (deploy sampleEnv sampleArgsInit oraBase sampleState0).1 = .ok () ∧
    (deploy sampleEnv sampleArgsInit oraBase sampleState0).2.currentTarget =
      some "/srv/app/releases/20260102-120000" ∧
    (deploy sampleEnv sampleArgsInit oraBase sampleState0).2.currentTarget ≠
      some "/srv/app/releases/20260102-120000/app" := by
  refine ⟨rfl, rfl, ?_⟩
  decide

set_option maxHeartbeats 2000000 in
/-- C1 (amended): every deploy run that returns success after reaching
ACTIVATE (changes present or forced, not a dry run, the fresh release
version sorting after all existing ones) leaves `current` resolving to
`releases/<new_version>` — the release root whose `app/` subtree holds
the payload — and `releases/<new_version>` containing `manifest.json`;
the run also releases the deployment lock. -/
theorem deploy_success_post (env : Env) (args : DeployArgs)
    (ora : RunOracle) (st : RemoteState)
    (hok : (deploy env args ora st).1 = .ok ())
    (hch : (ora.hasChanges || args.force) = true)
    (hdry : args.dryRun = false)
    (hfresh : ∀ r ∈ st.releases, r ≤ ora.releaseVersion) :
    (deploy env args ora st).2.currentTarget =
        some (env.remotePath ++ "/releases/" ++ ora.releaseVersion) ∧
      ora.releaseVersion ∈ (deploy env args ora st).2.manifests ∧
      ora.releaseVersion ∈ (deploy env args ora st).2.releases ∧
      (deploy env args ora st).2.lockDirExists = false := by
  cases hde : deploy env args ora st with
  | mk res st2 =>
    rw [hde] at hok
    simp only [hde]
    simp only at hok
    subst hok
    unfold deploy at hde
    have htools : ora.toolsOk = true := by
      by_contra hc
      have h0 : ora.toolsOk = false := by revert hc; cases ora.toolsOk <;> simp
      rw [if_pos (by simp [h0])] at hde
      exact Except.noConfusion (congrArg Prod.fst hde)
    rw [if_neg (by simp [htools])] at hde
    have hrepo : ora.repoOk = true := by
      by_contra hc
      have h0 : ora.repoOk = false := by revert hc; cases ora.repoOk <;> simp
      rw [if_pos (by simp [h0])] at hde
      exact Except.noConfusion (congrArg Prod.fst hde)
    rw [if_neg (by simp [hrepo])] at hde
    have hclean : ora.cleanOk = true := by
      by_contra hc
      have h0 : ora.cleanOk = false := by revert hc; cases ora.cleanOk <;> simp
      rw [if_pos (by simp [h0])] at hde
      exact Except.noConfusion (congrArg Prod.fst hde)
    rw [if_neg (by simp [hclean])] at hde
    have hclone : ora.cloneOk = true := by
      by_contra hc
      have h0 : ora.cloneOk = false := by revert hc; cases ora.cloneOk <;> simp
      rw [if_pos (by simp [h0])] at hde
      exact Except.noConfusion (congrArg Prod.fst hde)
    rw [if_neg (by simp [hclone])] at hde
    have hcommit : ora.commitOk = true := by
      by_contra hc
      have h0 : ora.commitOk = false := by revert hc; cases ora.commitOk <;> simp
      rw [if_pos (by simp [h0])] at hde
      exact Except.noConfusion (congrArg Prod.fst hde)
    rw [if_neg (by simp [hcommit])] at hde
    have hconn : ora.connectOk = true := by
      by_contra hc
      have h0 : ora.connectOk = false := by revert hc; cases ora.connectOk <;> simp
      rw [if_pos (by simp [h0])] at hde
      exact Except.noConfusion (congrArg Prod.fst hde)
    rw [if_neg (by simp [hconn])] at hde
    have hlock : st.lockDirExists = false := by
      by_contra hc
      have h0 : st.lockDirExists = true := by
        revert hc; cases st.lockDirExists <;> simp
      rw [if_pos (by simp [h0])] at hde
      exact Except.noConfusion (congrArg Prod.fst hde)
    rw [if_neg (by simp [hlock])] at hde
    have hfetch : ora.fetchOk = true := by
      by_contra hc
      have h0 : ora.fetchOk = false := by revert hc; cases ora.fetchOk <;> simp
      rw [if_pos (by simp [h0])] at hde
      exact Except.noConfusion (congrArg Prod.fst hde)
    rw [if_neg (by simp [hfetch])] at hde
    have hsm : (st.deployLock.isNone && !args.initialDeploy) = false := by
      by_contra hc
      have h0 : (st.deployLock.isNone && !args.initialDeploy) = true := by
        revert hc
        cases (st.deployLock.isNone && !args.initialDeploy) <;> simp
      rw [if_pos (by simp [h0])] at hde
      exact Except.noConfusion (congrArg Prod.fst hde)
    rw [if_neg (by simp [hsm])] at hde
    exact deployLocked_ok_post _ _ _ _ _ _ hde hch hdry
      (by simpa using hfresh)

/-- C1 witness: the amended success postcondition evaluated on the
concrete initial-deploy run. -/
theorem deploy_success_post_witness :
    (deploy sampleEnv sampleArgsInit oraBase sampleState0).2.currentTarget =
        some ("/srv/app" ++ "/releases/" ++ "20260102-120000") ∧
      "20260102-120000" ∈
        (deploy sampleEnv sampleArgsInit oraBase sampleState0).2.manifests ∧
      "20260102-120000" ∈
        (deploy sampleEnv sampleArgsInit oraBase sampleState0).2.releases ∧
      (deploy sampleEnv sampleArgsInit oraBase sampleState0).2.lockDirExists
        = false :=
  deploy_success_post sampleEnv sampleArgsInit oraBase sampleState0
    (by rfl) (by decide) (by decide) (by simp [sampleState0])

/-- The previous deployment's lock record used in concrete runs. -/
def samplePrevLock : DeployLock :=
  DeployLock.new "2026-01-01T10:00:00Z" "0ldc0mm17" "20260101-100000"
    [("index.php", "sha256:old")] "" "" ""

/-- The oracle `oraBase` with the single post-deploy hook failing. -/
def oraHookFail : RunOracle := { oraBase with hookResults := [false] }

/-- A remote with one previous release deployed and recorded. -/
def sampleStatePrev : RemoteState :=
  ⟨false, some samplePrevLock, ["20260101-100000"], ["20260101-100000"],
   some "/srv/app/releases/20260101-100000"⟩

set_option maxHeartbeats 1000000 in
/-- C2: in every run that reaches the hooks with a previous deploy
record and has some hook fail (exit non-zero or time out), the
coordinator re-points `current` at the previous release (relative
target `releases/<prev>`), surfaces the hook failure, and leaves the
remote `deploy.lock` untouched — it still describes the previous
release; the new release directory stays on disk. -/
theorem deploy_hook_failure_rolls_back (env : Env) (args : DeployArgs)
    (ora : RunOracle) (st : RemoteState) (pl : DeployLock)
    (hloc : LocalOk ora) (hpipe : PipelineOk ora)
    (hlock : st.lockDirExists = false)
    (hprev : st.deployLock = some pl)
    (hch : (ora.hasChanges || args.force) = true)
    (hdry : args.dryRun = false)
    (hhook : ora.hookResults.all (fun b => b) = false)
    (hrb : ora.rollbackOk = true) :
    deploy env args ora st =
      (.error (.hookFailedRolledBack pl.lastDeploy.releaseDir),
       { st with releases := st.releases ++ [ora.releaseVersion],
                 manifests := st.manifests ++ [ora.releaseVersion],
                 currentTarget :=
                   some ("releases/" ++ pl.lastDeploy.releaseDir) }) := by
  obtain ⟨h1, h2, h3, h4, h5, h6, h7⟩ := hloc
  obtain ⟨p1, p2, p3, p4, p5, p6, p7, p8, p9, p10, p11, p12, p13⟩ := hpipe
  have hncond : (!ora.hasChanges && !args.force) = false := by
    revert hch
    cases ora.hasChanges <;> cases args.force <;> simp
  simp [deploy, deployLocked, releaseLock, finalizeState, activateState,
    rollbackState, h1, h2, h3, h4, h5, h6, h7, p1, p2, p3, p4, p5, p6,
    p7, p8, p9, p10, p11, p12, p13, hlock, hprev, hncond, hdry, hhook,
    hrb]

/-- C2 witness: the rollback-on-hook-failure behaviour on a concrete
second deploy whose hook fails. -/
theorem deploy_hook_failure_rolls_back_witness :
    deploy sampleEnv sampleArgsInit oraHookFail sampleStatePrev =
      (.error (.hookFailedRolledBack samplePrevLock.lastDeploy.releaseDir),
       { sampleStatePrev with
           releases := sampleStatePrev.releases
             ++ [oraHookFail.releaseVersion],
           manifests := sampleStatePrev.manifests
             ++ [oraHookFail.releaseVersion],
           currentTarget :=
             some ("releases/"
               ++ samplePrevLock.lastDeploy.releaseDir) }) :=
  deploy_hook_failure_rolls_back sampleEnv sampleArgsInit oraHookFail
    sampleStatePrev samplePrevLock
    ⟨rfl, rfl, rfl, rfl, rfl, rfl, rfl⟩
    ⟨rfl, rfl, rfl, rfl, rfl, rfl, rfl, rfl, rfl, rfl, rfl, rfl, rfl⟩
    rfl rfl (by decide) rfl rfl rfl

set_option maxHeartbeats 1000000 in
/-- C10: when a hook fails during a run with no previous deploy record
(initial deploy), no rollback is attempted: the run fails with the
"no previous version for rollback" hook error and `current` keeps
resolving to the newly activated release; `deploy.lock` stays absent. -/
theorem deploy_hook_failure_no_previous (env : Env) (args : DeployArgs)
    (ora : RunOracle) (st : RemoteState)
    (hloc : LocalOk ora) (hpipe : PipelineOk ora)
    (hlock : st.lockDirExists = false)
    (hprev : st.deployLock = none)
    (hinit : args.initialDeploy = true)
    (hch : (ora.hasChanges || args.force) = true)
    (hdry : args.dryRun = false)
    (hhook : ora.hookResults.all (fun b => b) = false) :
    deploy env args ora st =
      (.error .hookFailedNoPrev,
       { st with releases := st.releases ++ [ora.releaseVersion],
                 manifests := st.manifests ++ [ora.releaseVersion],
                 currentTarget := some (env.remotePath ++ "/releases/"
                   ++ ora.releaseVersion) }) := by
  obtain ⟨h1, h2, h3, h4, h5, h6, h7⟩ := hloc
  obtain ⟨p1, p2, p3, p4, p5, p6, p7, p8, p9, p10, p11, p12, p13⟩ := hpipe
  have hncond : (!ora.hasChanges && !args.force) = false := by
    revert hch
    cases ora.hasChanges <;> cases args.force <;> simp
  simp [deploy, deployLocked, releaseLock, finalizeState, activateState,
    h1, h2, h3, h4, h5, h6, h7, p1, p2, p3, p4, p5, p6, p7, p8, p9,
    p10, p11, p12, p13, hlock, hprev, hinit, hncond, hdry, hhook]

/-- C10 witness: the no-rollback behaviour on a concrete initial deploy
whose hook fails. -/
theorem deploy_hook_failure_no_previous_witness :
    deploy sampleEnv sampleArgsInit oraHookFail sampleState0 =
      (.error .hookFailedNoPrev,
       { sampleState0 with
           releases := sampleState0.releases
             ++ [oraHookFail.releaseVersion],
           manifests := sampleState0.manifests
             ++ [oraHookFail.releaseVersion],
           currentTarget := some (sampleEnv.remotePath ++ "/releases/"
             ++ oraHookFail.releaseVersion) }) :=
  deploy_hook_failure_no_previous sampleEnv sampleArgsInit oraHookFail
    sampleState0
    ⟨rfl, rfl, rfl, rfl, rfl, rfl, rfl⟩
    ⟨rfl, rfl, rfl, rfl, rfl, rfl, rfl, rfl, rfl, rfl, rfl, rfl, rfl⟩
    rfl rfl rfl (by decide) rfl rfl

/-- A remote on which another deployment currently holds `.versa.lock`. -/
def sampleStateLocked : RemoteState := ⟨true, none, [], [], none⟩

/-- C3 counterexample: the error a deploy raises while another holds
the lock is `AcquireLock`'s "Deployment lock already held" failure,
whose stable code is `CONFIG_INVALID` — the error taxonomy has no
dedicated deploy-in-progress kind. -/
theorem deploy_in_progress_kind_counterexample :
    (deploy sampleEnv sampleArgsInit oraBase sampleStateLocked).1 =
      .error (.lockHeld "CONFIG_INVALID" "Deployment lock already held") ∧
    "CONFIG_INVALID" ≠ "DEPLOY_IN_PROGRESS" := by
  exact ⟨rfl, by decide⟩

/-- C3 (amended): `AcquireLock`'s SFTP `mkdir` of `.versa.lock` fails
exactly when the directory already exists, and a deploy attempted while
another holds the lock fails fast with the "Deployment lock already
held" error (code `CONFIG_INVALID`, not a dedicated deploy-in-progress
kind) leaving the whole remote state — every other path — untouched. -/
theorem deploy_in_progress_spec (env : Env) (args : DeployArgs)
    (ora : RunOracle) (st : RemoteState)
    (h1 : ora.toolsOk = true) (h2 : ora.repoOk = true)
    (h3 : ora.cleanOk = true) (h4 : ora.cloneOk = true)
    (h5 : ora.commitOk = true) (h6 : ora.connectOk = true)
    (hlock : st.lockDirExists = true) :
    (∀ st0 : RemoteState,
      ((∃ e, (acquireLock st0).1 = .error e) ↔ st0.lockDirExists = true)) ∧
    deploy env args ora st =
      (.error (.lockHeld "CONFIG_INVALID" "Deployment lock already held"),
       st) := by
  constructor
  · intro st0
    cases h : st0.lockDirExists <;> simp [acquireLock, h]
  · simp [deploy, h1, h2, h3, h4, h5, h6, hlock]

/-- C3 witness: mutual exclusion evaluated on a concrete locked remote. -/
theorem deploy_in_progress_spec_witness :
    (∀ st0 : RemoteState,
      ((∃ e, (acquireLock st0).1 = .error e) ↔ st0.lockDirExists = true)) ∧
    deploy sampleEnv sampleArgsInit oraBase sampleStateLocked =
      (.error (.lockHeld "CONFIG_INVALID" "Deployment lock already held"),
       sampleStateLocked) :=
  deploy_in_progress_spec sampleEnv sampleArgsInit oraBase
    sampleStateLocked rfl rfl rfl rfl rfl rfl rfl

/-- A remote where `current` points at the *older* of two releases
(the situation after a previous rollback). -/
def sampleStateRB : RemoteState :=
  ⟨false, none, ["20260101-000000", "20260102-000000"], [],
   some "/srv/app/releases/20260101-000000"⟩

/-- C5 counterexample: a successful rollback that re-points `current`
at a release *later* in lexicographic order than the one before:
with `current → releases/20260101-000000` and both releases on disk,
rollback picks `20260102-000000` (the greatest non-current name). -/
theorem rollback_strictly_earlier_counterexample :
    (rollbackOp sampleEnv sampleStateRB true).1 = .ok () ∧
    (rollbackOp sampleEnv sampleStateRB true).2.currentTarget =
      some "releases/20260102-000000" ∧
    goPathBase "/srv/app/releases/20260101-000000" = "20260101-000000" ∧
    ¬("20260102-000000" < "20260101-000000") ∧
    "20260101-000000" < "20260102-000000" := by
  refine ⟨rfl, rfl, rfl, ?_, ?_⟩
  · rw [String.lt_iff_toList_lt]
    decide
  · rw [String.lt_iff_toList_lt]
    decide

/-- C5 (amended): rollback fails with the no-previous-release error
whenever fewer than two release directories exist; on success it
switches `current` to the lexicographically *greatest* release distinct
from the current one — which is strictly earlier than the current
release exactly when the current release was the greatest. -/
theorem rollback_spec (env : Env) (st : RemoteState) (slok : Bool) :
    (∀ c, st.currentTarget = some c → st.releases.length < 2 →
      rollbackOp env st slok =
        (.error "no previous release to rollback to", st)) ∧
    (∀ st2, rollbackOp env st slok = (.ok (), st2) →
      ∃ c prev, st.currentTarget = some c ∧ prev ∈ st.releases ∧
        prev ≠ goPathBase c ∧
        st2.currentTarget = some ("releases/" ++ prev) ∧
        (∀ y ∈ st.releases, y ≠ goPathBase c → y ≤ prev) ∧
        ((∀ y ∈ st.releases, y ≤ goPathBase c) → prev < goPathBase c)) := by
  constructor
  · intro c hc hlen
    simp [rollbackOp, hc, hlen]
  · intro st2 heq
    unfold rollbackOp at heq
    cases hc : st.currentTarget with
    | none => rw [hc] at heq; simp at heq
    | some c =>
      rw [hc] at heq
      simp only at heq
      by_cases hlen : st.releases.length < 2
      · rw [if_pos hlen] at heq
        exact absurd (congrArg Prod.fst heq) (by simp)
      · rw [if_neg hlen] at heq
        cases hfind : (sortDesc st.releases).find?
            (fun r => r != goPathBase c) with
        | none => rw [hfind] at heq; simp at heq
        | some prev =>
          rw [hfind] at heq
          cases hok : slok with
          | false => rw [hok] at heq; simp at heq
          | true =>
            rw [hok] at heq
            have hst2 : st2 =
                { st with currentTarget := some ("releases/" ++ prev) } := by
              have hcomp := congrArg Prod.snd heq
              simpa using hcomp.symm
            obtain ⟨hmem, hpred, hmax⟩ := find?_sortedGe_max _ _
              (sortedGe_sortDesc st.releases) prev hfind
            refine ⟨c, prev, rfl, (mem_sortDesc _ _).mp hmem, ?_, ?_, ?_, ?_⟩
            · simpa using hpred
            · rw [hst2]
            · intro y hy hne
              exact hmax y ((mem_sortDesc _ _).mpr hy) (by simpa using hne)
            · intro hcmax
              have hle : prev ≤ goPathBase c :=
                hcmax prev ((mem_sortDesc _ _).mp hmem)
              exact lt_of_le_of_ne hle (by simpa using hpred)

/-- A remote with a single release: rollback must refuse. -/
def sampleStateSingle : RemoteState :=
  ⟨false, none, ["20260101-000000"], [],
   some "/srv/app/releases/20260101-000000"⟩

/-- A remote where `current` points at the newest of two releases. -/
def sampleStateRB2 : RemoteState :=
  ⟨false, none, ["20260130-100000", "20260131-120000"], [],
   some "/srv/app/releases/20260131-120000"⟩

/-- C5 witness: both halves of the rollback contract evaluated on
concrete remotes (one release → refusal; two releases with the newest
active → switch to the predecessor). -/
theorem rollback_spec_witness :
    rollbackOp sampleEnv sampleStateSingle true =
      (.error "no previous release to rollback to", sampleStateSingle) ∧
    (∃ c prev, sampleStateRB2.currentTarget = some c ∧
      prev ∈ sampleStateRB2.releases ∧ prev ≠ goPathBase c ∧
      (⟨false, none, ["20260130-100000", "20260131-120000"], [],
        some "releases/20260130-100000"⟩ : RemoteState).currentTarget =
        some ("releases/" ++ prev) ∧
      (∀ y ∈ sampleStateRB2.releases, y ≠ goPathBase c → y ≤ prev) ∧
      ((∀ y ∈ sampleStateRB2.releases, y ≤ goPathBase c) →
        prev < goPathBase c)) :=
  ⟨(rollback_spec sampleEnv sampleStateSingle true).1
      "/srv/app/releases/20260101-000000" rfl (by decide),
   (rollback_spec sampleEnv sampleStateRB2 true).2
      ⟨false, none, ["20260130-100000", "20260131-120000"], [],
        some "releases/20260130-100000"⟩ rfl⟩

end VersaDeploy
